import Mathlib

/-!
Shallow embedding of the `gostringlist` Go library (package `gostringlist`,
file `gostringlist.go`).  A `StringList` wraps a Go slice of strings; each
method below is translated from the corresponding Go method.  Go slices are
modelled as `List String`, Go `int` as `Int` where sign matters, and Go's
builtin `copy` as `goCopy` below.  Methods that mutate their pointer receiver
are modelled as functions returning the new state of the receiver (paired
with the returned `error`, modelled as `Option String`, where the Go method
returns one).
-/

set_option autoImplicit false

/-- The `StringList` struct: `type StringList struct { Items []string }`. -/
structure StringList where
  Items : List String
deriving Repr, DecidableEq

/-- Go's builtin `copy(dst, src)`: copies `min (len dst) (len src)` elements
from the front of `src` over the front of `dst` and leaves the rest of `dst`
unchanged (memmove semantics).  Returns the new contents of `dst`. -/
def goCopy (dst src : List String) : List String :=
  src.take (min dst.length src.length) ++ dst.drop (min dst.length src.length)

/-- Method `Copy` translated from the source: `var newList StringList` leaves
`newList.Items` as the zero value (the nil slice, i.e. `[]`), and then
`copy(newList.Items, list.Items)` copies into that zero-length destination. -/
def StringList.Copy (list : StringList) : StringList :=
  ⟨goCopy [] list.Items⟩

/-- The element-by-element comparison loop of `IsEqual`:
`for i := range list.Items { if list.Items[i] != list2.Items[i] { return false } }`. -/
def isEqualLoop : List String → List String → Bool
  | [], _ => true
  | _, [] => true
  | a :: t, b :: u => if a ≠ b then false else isEqualLoop t u

/-- Method `IsEqual`: false when the lengths differ, otherwise the index loop. -/
def StringList.IsEqual (list list2 : StringList) : Bool :=
  if list.Items.length ≠ list2.Items.length then false
  else isEqualLoop list.Items list2.Items

/-- Method `IsEmpty`: `len(list.Items) == 0`. -/
def StringList.IsEmpty (list : StringList) : Bool :=
  list.Items.length == 0

/-- The loop of `IndexOf`: `for i, v := range list.Items { if str == v { return i } }`,
with `i` carried as the range counter; falls through to `-1`. -/
def indexOfLoop (str : String) : List String → Nat → Int
  | [], _ => -1
  | v :: rest, i => if str = v then (i : Int) else indexOfLoop str rest (i + 1)

/-- Method `IndexOf`: first index whose item equals `str` exactly, else `-1`. -/
def StringList.IndexOf (list : StringList) (str : String) : Int :=
  indexOfLoop str list.Items 0

/-- The loop of `Contains`: `for _, v := range list.Items { if str == v { return true } }`. -/
def containsLoop (str : String) : List String → Bool
  | [] => false
  | v :: rest => if str = v then true else containsLoop str rest

/-- Method `Contains`: true when some item equals `str` exactly. -/
def StringList.Contains (list : StringList) (str : String) : Bool :=
  containsLoop str list.Items

/-- The loop of `ToString`: starting at `partsIndex = 1`, each item `v` writes
`"\"" + v + "\""` at the current index and `","` at the next, advancing by 2. -/
def toStringLoop : List String → List String → Nat → List String
  | parts, [], _ => parts
  | parts, v :: rest, i =>
      toStringLoop ((parts.set i ("\"" ++ v ++ "\"")).set (i + 1) ",") rest (i + 2)

/-- Method `ToString` translated from the source: allocate `2*len+1` empty parts,
write `"["` at index 0, run the item loop from index 1, overwrite the final
slot with `"]"`, and join everything with the empty separator. -/
def StringList.ToString (list : StringList) : String :=
  let parts := List.replicate (2 * list.Items.length + 1) ""
  let parts := parts.set 0 "["
  let parts := toStringLoop parts list.Items 1
  let parts := parts.set (parts.length - 1) "]"
  String.join parts

/-- The in-place shift of `Insert` after the bounds check:
`list.Items = append(list.Items, str)`, then
`copy(list.Items[index+1:], list.Items[index:])`, then
`list.Items[index] = str`.  The `copy` onto the subslice starting at `i+1`
is rendered by splitting the slice there and running `goCopy` on the tail. -/
def insertShift (items : List String) (str : String) (i : Nat) : List String :=
  (((items ++ [str]).take (i + 1)) ++
    goCopy ((items ++ [str]).drop (i + 1)) ((items ++ [str]).drop i)).set i str

/-- Method `Insert`: rejects `index < 0 || index > len(list.Items)` with the error
`"index out of range"` (leaving the receiver untouched), otherwise performs
the append-shift-overwrite sequence.  The returned pair is (new state of the
receiver, returned error). -/
def StringList.Insert (list : StringList) (str : String) (index : Int) :
    StringList × Option String :=
  if index < 0 ∨ index > (list.Items.length : Int) then
    (list, some "index out of range")
  else
    (⟨insertShift list.Items str index.toNat⟩, none)

/-- The shift-and-truncate of `Remove` once the index is known:
`copy(list.Items[index:], list.Items[index+1:])` followed by
`list.Items = list.Items[:len(list.Items)-1]`. -/
def removeShift (items : List String) (i : Nat) : List String :=
  (items.take i ++ goCopy (items.drop i) (items.drop (i + 1))).take (items.length - 1)

/-- Method `Remove`: looks up `IndexOf str`; returns with the list unchanged when it
is negative, otherwise shifts the tail left over the removed slot and drops
the last position. -/
def StringList.Remove (list : StringList) (str : String) : StringList :=
  let index := list.IndexOf str
  if index < 0 then list
  else ⟨removeShift list.Items index.toNat⟩

/-- Method `RemoveUnordered`: looks up `IndexOf str`; when found, overwrites that
slot with `list.Items[length-1]` and truncates to `length-1`. -/
def StringList.RemoveUnordered (list : StringList) (str : String) : StringList :=
  let index := list.IndexOf str
  if index < 0 then list
  else
    let length := list.Items.length
    ⟨(list.Items.set index.toNat (list.Items.getD (length - 1) "")).take (length - 1)⟩

/-- Method `Join`: `strings.Join(list.Items, sep)`. -/
def StringList.Join (list : StringList) (sep : String) : String :=
  String.intercalate sep list.Items

/-- The loop of `Filter`: for each index `i` of the source (visited in
ascending order), call `op i` on the full source slice and append the
returned string to the accumulator when the returned boolean is true. -/
def filterLoop (op : Nat → List String → Bool × String) (src : List String) :
    List Nat → List String → List String
  | [], acc => acc
  | i :: rest, acc =>
      let r := op i src
      filterLoop op src rest (if r.1 then acc ++ [r.2] else acc)

/-- Method `Filter`: builds a new list by running the caller-supplied `op` once per
index over the (unchanged) source items. -/
def StringList.Filter (list : StringList) (op : Nat → List String → Bool × String) :
    StringList :=
  ⟨filterLoop op list.Items (List.range list.Items.length) []⟩

/-- A compiled regular expression as the library observes it: the Go
`regexp.Regexp` collaborator is external to this repository, so it is
modelled abstractly by its two methods used here. -/
structure Regexp where
  MatchString : String → Bool
  ReplaceAllString : String → String → String

/-- The regex engine's `regexp.Compile`, abstracted: it either returns a
compiled `Regexp` or a compile error. -/
def RegexEngine : Type := String → Except String Regexp

/-- The matching loop of `MatchFilter`: append each item for which
`re.MatchString(item)` reports a match somewhere in the item. -/
def matchLoop (re : Regexp) : List String → List String → List String
  | [], acc => acc
  | item :: rest, acc =>
      matchLoop re rest (if re.MatchString item then acc ++ [item] else acc)

/-- Method `MatchFilter`: compile the pattern first; on a compile error return the
still-empty new list alongside the error, otherwise keep exactly the
matching items in order.  `compile` stands for the external engine. -/
def StringList.MatchFilter (compile : RegexEngine) (list : StringList)
    (pattern : String) : StringList × Option String :=
  match compile pattern with
  | .error e => (⟨[]⟩, some e)
  | .ok re => (⟨matchLoop re list.Items []⟩, none)

/-- The replacing loop of `ReplaceAllFilter`: append
`re.ReplaceAllString(item, repl)` for every item. -/
def replaceLoop (re : Regexp) (repl : String) : List String → List String → List String
  | [], acc => acc
  | item :: rest, acc => replaceLoop re repl rest (acc ++ [re.ReplaceAllString item repl])

/-- Method `ReplaceAllFilter`: compile the pattern; on a compile error return the
still-empty new list alongside the error, otherwise map the replacement over
every item. -/
def StringList.ReplaceAllFilter (compile : RegexEngine) (list : StringList)
    (pattern repl : String) : StringList × Option String :=
  match compile pattern with
  | .error e => (⟨[]⟩, some e)
  | .ok re => (⟨replaceLoop re repl list.Items []⟩, none)

/-- Spec-side description of `Remove` for the refinement comparison: delete
exactly the first occurrence of `v`, keeping everything else in order; leave
the list alone when `v` is absent. -/
def removeFirstSpec : List String → String → List String
  | [], _ => []
  | a :: t, v => if v = a then t else a :: removeFirstSpec t v

/-- Spec-side first-occurrence index (`none` when absent), used to phrase the
claims about `IndexOf`-driven operations. -/
def firstIdx (str : String) : List String → Option Nat
  | [] => none
  | v :: rest => if str = v then some 0 else (firstIdx str rest).map (· + 1)

/-- A concrete stand-in engine used to instantiate the abstract regex
collaborator on the spec's round-trip example: it compiles exactly the
pattern name "upper" into a matcher for items whose first character is an
uppercase letter, and rejects everything else with a compile error. -/
def demoRegexp : Regexp :=
  ⟨fun s => match s.data with
    | c :: _ => c.isUpper
    | [] => false,
   fun s _ => s⟩

/-- The concrete engine wrapping `demoRegexp`. -/
def demoEngine : RegexEngine :=
  fun p => if p = "upper" then .ok demoRegexp else .error ("bad pattern: " ++ p)

/-! Helper lemmas shared by the claim theorems. -/

theorem indexOfLoop_eq (s : String) (l : List String) (i : Nat) :
    indexOfLoop s l i = (match firstIdx s l with
      | none => (-1 : Int)
      | some k => (i : Int) + (k : Int)) := by
  induction l generalizing i with
  | nil => rfl
  | cons v rest ih =>
      simp only [indexOfLoop, firstIdx]
      by_cases h : s = v
      · simp [h]
      · rw [if_neg h, if_neg h, ih (i + 1)]
        cases hf : firstIdx s rest with
        | none => simp
        | some k => simp; ring

theorem containsLoop_eq (s : String) (l : List String) :
    containsLoop s l = (firstIdx s l).isSome := by
  induction l with
  | nil => rfl
  | cons v rest ih =>
      simp only [containsLoop, firstIdx]
      by_cases h : s = v
      · simp [h]
      · simp [h, ih]

theorem firstIdx_lt_length (s : String) (l : List String) (k : Nat)
    (h : firstIdx s l = some k) : k < l.length := by
  induction l generalizing k with
  | nil => simp [firstIdx] at h
  | cons v rest ih =>
      simp only [firstIdx] at h
      by_cases hv : s = v
      · rw [if_pos hv] at h
        cases h
        simp
      · rw [if_neg hv] at h
        cases hf : firstIdx s rest with
        | none => rw [hf] at h; simp at h
        | some k' =>
            rw [hf] at h
            simp only [Option.map_some'] at h
            cases h
            have := ih k' hf
            simp only [List.length_cons]
            omega

theorem insertShift_succ_cons (a : String) (t : List String) (v : String) (j : Nat) :
    insertShift (a :: t) v (j + 1) = a :: insertShift t v j := by
  simp only [insertShift, List.cons_append, List.take_succ_cons, List.drop_succ_cons,
    List.set_cons_succ]

theorem insertShift_zero (l : List String) (v : String) :
    insertShift l v 0 = v :: l := by
  cases l with
  | nil => rfl
  | cons a t =>
      simp only [insertShift, List.cons_append, List.take_succ_cons, List.take_zero,
        List.drop_succ_cons, List.drop_zero, goCopy, List.length_cons, List.length_append,
        List.length_nil, Nat.zero_add]
      rw [Nat.min_eq_left (by omega)]
      rw [List.take_succ_cons, List.take_left' rfl, List.drop_eq_nil_of_le (by simp)]
      simp [List.set_cons_zero]

theorem insertShift_eq (v : String) (l : List String) (i : Nat) (hi : i ≤ l.length) :
    insertShift l v i = l.take i ++ v :: l.drop i := by
  induction l generalizing i with
  | nil =>
      have : i = 0 := Nat.le_zero.mp hi
      subst this
      rfl
  | cons a t ih =>
      cases i with
      | zero => simp [insertShift_zero]
      | succ j =>
          rw [insertShift_succ_cons, ih j (by simpa using hi)]
          simp [List.take_succ_cons, List.drop_succ_cons]

theorem removeShift_zero_cons (a : String) (t : List String) :
    removeShift (a :: t) 0 = t := by
  simp only [removeShift, List.take_zero, List.drop_zero, List.nil_append,
    List.drop_succ_cons, goCopy, List.length_cons, Nat.add_sub_cancel]
  rw [Nat.min_eq_right (by omega), List.take_length, List.take_left]

theorem removeShift_succ_cons (a : String) (t : List String) (j : Nat) (h : j < t.length) :
    removeShift (a :: t) (j + 1) = a :: removeShift t j := by
  simp only [removeShift, List.take_succ_cons, List.drop_succ_cons, List.cons_append,
    List.length_cons, Nat.add_sub_cancel]
  obtain ⟨m, hm⟩ : ∃ m, t.length = m + 1 := ⟨t.length - 1, by omega⟩
  rw [hm, List.take_succ_cons, Nat.add_sub_cancel]

theorem removeShift_eq (l : List String) (i : Nat) (hi : i < l.length) :
    removeShift l i = l.take i ++ l.drop (i + 1) := by
  induction l generalizing i with
  | nil => simp at hi
  | cons a t ih =>
      cases i with
      | zero => simp [removeShift_zero_cons]
      | succ j =>
          have hj : j < t.length := by simpa using hi
          rw [removeShift_succ_cons a t j hj, ih j hj]
          simp [List.take_succ_cons, List.drop_succ_cons]

theorem firstIdx_none_removeFirstSpec (l : List String) (v : String)
    (h : firstIdx v l = none) : removeFirstSpec l v = l := by
  induction l with
  | nil => rfl
  | cons a t ih =>
      simp only [firstIdx] at h
      by_cases hv : v = a
      · rw [if_pos hv] at h; cases h
      · rw [if_neg hv] at h
        simp only [Option.map_eq_none'] at h
        simp [removeFirstSpec, hv, ih h]

theorem firstIdx_some_removeFirstSpec (l : List String) (v : String) (k : Nat)
    (h : firstIdx v l = some k) :
    removeFirstSpec l v = l.take k ++ l.drop (k + 1) := by
  induction l generalizing k with
  | nil => simp [firstIdx] at h
  | cons a t ih =>
      simp only [firstIdx] at h
      by_cases hv : v = a
      · rw [if_pos hv] at h
        cases h
        simp [removeFirstSpec, hv]
      · rw [if_neg hv] at h
        cases hf : firstIdx v t with
        | none => rw [hf] at h; simp at h
        | some k' =>
            rw [hf] at h
            simp only [Option.map_some'] at h
            cases h
            simp [removeFirstSpec, hv, ih k' hf, List.take_succ_cons, List.drop_succ_cons]

theorem getD_length_sub_one (l : List String) (h : 0 < l.length) :
    l.getD (l.length - 1) "" = l.getLastD "" := by
  induction l with
  | nil => simp at h
  | cons a t ih =>
      cases t with
      | nil => rfl
      | cons b u =>
          have ht : 0 < (b :: u).length := by simp
          have h2 := ih ht
          simp only [List.length_cons, Nat.add_sub_cancel] at h2 ⊢
          rw [List.getD_cons_succ, h2, List.getLastD_eq_getLast?, List.getLastD_eq_getLast?,
            List.getLast?_cons_cons]

theorem filterLoop_append (op : Nat → List String → Bool × String) (src : List String)
    (idxs : List Nat) (acc : List String) :
    filterLoop op src idxs acc =
      acc ++ idxs.filterMap (fun i => if (op i src).1 then some (op i src).2 else none) := by
  induction idxs generalizing acc with
  | nil => simp [filterLoop]
  | cons i rest ih =>
      simp only [filterLoop, List.filterMap_cons]
      by_cases h : (op i src).1
      · rw [if_pos h, ih]
        simp [h, List.append_assoc]
      · rw [if_neg h, ih]
        simp [h]

theorem matchLoop_append (re : Regexp) (items acc : List String) :
    matchLoop re items acc = acc ++ items.filter re.MatchString := by
  induction items generalizing acc with
  | nil => simp [matchLoop]
  | cons item rest ih =>
      simp only [matchLoop, List.filter_cons]
      by_cases h : re.MatchString item
      · rw [if_pos h, ih]
        simp [h, List.append_assoc]
      · rw [if_neg h, ih]
        simp [h]

/-! The claim theorems. -/

/-- C1: the claim says `Copy` is a deep value copy with the same text values,
so that `IsEqual(L, L.Copy())` holds for every `L`.  The code copies into the
zero-value (empty) destination slice, so `Copy` always returns the empty
list: already for `L = ["a"]` the copy is `[]` and `IsEqual` is false. -/
theorem copy_drops_all_items :
    StringList.Copy ⟨["a"]⟩ = ⟨[]⟩ ∧
    StringList.IsEqual ⟨["a"]⟩ (StringList.Copy ⟨["a"]⟩) = false := by
  constructor <;> rfl

/-- C2: the claim says `ToString` renders a bracketed, comma-separated,
double-quoted listing and that the empty list renders exactly as `[]`.  The
non-empty rendering is as claimed, but on the empty list the closing bracket
overwrites the single parts slot holding the opening bracket, so the code
renders `]`. -/
theorem toString_empty_renders_closing_bracket :
    StringList.ToString ⟨[]⟩ = "]" ∧
    StringList.ToString ⟨["a", "b"]⟩ = "[\"a\",\"b\"]" := by
  constructor <;> rfl

/-- C3: for any index `i < 0` or `i > length`, `Insert` returns the
out-of-range error and leaves the list exactly unchanged (the returned
receiver state is the original list). -/
theorem insert_rejects_out_of_range (l : List String) (v : String) (i : Int)
    (h : i < 0 ∨ i > (l.length : Int)) :
    StringList.Insert ⟨l⟩ v i = (⟨l⟩, some "index out of range") := by
  have hdef : StringList.Insert ⟨l⟩ v i =
      (if i < 0 ∨ i > (l.length : Int) then ((⟨l⟩ : StringList), some "index out of range")
       else (⟨insertShift l v i.toNat⟩, none)) := rfl
  rw [hdef, if_pos h]

/-- Witness for C3 at the claim's own inputs `-1` and `length + 1`. -/
theorem insert_rejects_out_of_range_witness :
    ((-1 : Int) < 0 ∨ (-1 : Int) > ((["a", "b", "d"] : List String).length : Int)) ∧
    ((4 : Int) < 0 ∨ (4 : Int) > ((["a", "b", "d"] : List String).length : Int)) ∧
    StringList.Insert ⟨["a", "b", "d"]⟩ "c" (-1) =
      (⟨["a", "b", "d"]⟩, some "index out of range") ∧
    StringList.Insert ⟨["a", "b", "d"]⟩ "c" 4 =
      (⟨["a", "b", "d"]⟩, some "index out of range") :=
  ⟨Or.inl (by decide), Or.inr (by decide),
   insert_rejects_out_of_range ["a", "b", "d"] "c" (-1) (Or.inl (by decide)),
   insert_rejects_out_of_range ["a", "b", "d"] "c" 4 (Or.inr (by decide))⟩

/-- C4: for `0 ≤ i ≤ length`, `Insert` succeeds (no error) and the new list
is the old prefix of length `i`, then the new value, then the old suffix from
`i` on: the value occupies position `i`, earlier items are unchanged, later
items are shifted one later, and `i = length` appends. -/
theorem insert_places_value_at_index (l : List String) (v : String) (i : Int)
    (h0 : 0 ≤ i) (h1 : i ≤ (l.length : Int)) :
    StringList.Insert ⟨l⟩ v i = (⟨l.take i.toNat ++ v :: l.drop i.toNat⟩, none) := by
  have hdef : StringList.Insert ⟨l⟩ v i =
      (if i < 0 ∨ i > (l.length : Int) then ((⟨l⟩ : StringList), some "index out of range")
       else (⟨insertShift l v i.toNat⟩, none)) := rfl
  rw [hdef, if_neg (by omega), insertShift_eq v l i.toNat (by omega)]

/-- Witness for C4 on the claim's example `Insert(["a","b","d"], "c", 2)`. -/
theorem insert_places_value_at_index_witness :
    (0 : Int) ≤ 2 ∧ (2 : Int) ≤ ((["a", "b", "d"] : List String).length : Int) ∧
    StringList.Insert ⟨["a", "b", "d"]⟩ "c" 2 = (⟨["a", "b", "c", "d"]⟩, none) :=
  ⟨by decide, by decide,
   (insert_places_value_at_index ["a", "b", "d"] "c" 2 (by decide) (by decide)).trans
     (by decide)⟩

/-- C5: `Remove` agrees with the specification-level operation that deletes
exactly the first occurrence (shifting later items one earlier, keeping
order) and is a no-op when the value is absent; including the claim's
example `Remove(["a","b","c","d"], "c") = ["a","b","d"]`. -/
theorem remove_deletes_first_occurrence (l : List String) (v : String) :
    StringList.Remove ⟨l⟩ v = ⟨removeFirstSpec l v⟩ ∧
    StringList.Remove ⟨["a", "b", "c", "d"]⟩ "c" = ⟨["a", "b", "d"]⟩ := by
  refine ⟨?_, by decide⟩
  have hdef : StringList.Remove ⟨l⟩ v =
      (if indexOfLoop v l 0 < 0 then (⟨l⟩ : StringList)
       else ⟨removeShift l (indexOfLoop v l 0).toNat⟩) := rfl
  rw [hdef, indexOfLoop_eq]
  cases hf : firstIdx v l with
  | none => simp [firstIdx_none_removeFirstSpec l v hf]
  | some k =>
      have hk := firstIdx_lt_length v l k hf
      rw [firstIdx_some_removeFirstSpec l v k hf]
      simp only [Nat.cast_zero, zero_add, Int.toNat_natCast]
      rw [if_neg (by omega), removeShift_eq l k hk]

/-- C6: when `v` occurs (first occurrence at index `k`), `RemoveUnordered`
overwrites slot `k` with the current last item and drops the last position,
shortening the list by exactly one; when `v` is absent it is a no-op. -/
theorem removeUnordered_swaps_in_last (l : List String) (v : String) :
    (∀ k : Nat, firstIdx v l = some k →
      StringList.RemoveUnordered ⟨l⟩ v = ⟨(l.set k (l.getLastD "")).dropLast⟩ ∧
      (StringList.RemoveUnordered ⟨l⟩ v).Items.length = l.length - 1) ∧
    (firstIdx v l = none → StringList.RemoveUnordered ⟨l⟩ v = ⟨l⟩) := by
  have hdef : StringList.RemoveUnordered ⟨l⟩ v =
      (if indexOfLoop v l 0 < 0 then (⟨l⟩ : StringList)
       else ⟨(l.set (indexOfLoop v l 0).toNat (l.getD (l.length - 1) "")).take
              (l.length - 1)⟩) := rfl
  constructor
  · intro k hk
    have hklt := firstIdx_lt_length v l k hk
    have hlen : 0 < l.length := Nat.lt_of_le_of_lt (Nat.zero_le k) hklt
    have hres : StringList.RemoveUnordered ⟨l⟩ v =
        ⟨(l.set k (l.getD (l.length - 1) "")).take (l.length - 1)⟩ := by
      rw [hdef, indexOfLoop_eq, hk]
      simp only [Nat.cast_zero, zero_add, Int.toNat_natCast]
      rw [if_neg (by omega)]
    constructor
    · rw [hres, getD_length_sub_one l hlen, List.dropLast_eq_take, List.length_set]
    · rw [hres]
      simp only [List.length_take, List.length_set]
      omega
  · intro h0
    rw [hdef, indexOfLoop_eq, h0]
    simp

/-- Witness for C6 on the claim's example
`RemoveUnordered(["a","b","c","d","e"], "c") = ["a","b","e","d"]`, plus the
absent-value no-op at a second input. -/
theorem removeUnordered_swaps_in_last_witness :
    firstIdx "c" ["a", "b", "c", "d", "e"] = some 2 ∧
    StringList.RemoveUnordered ⟨["a", "b", "c", "d", "e"]⟩ "c" = ⟨["a", "b", "e", "d"]⟩ ∧
    (StringList.RemoveUnordered ⟨["a", "b", "c", "d", "e"]⟩ "c").Items.length =
      (["a", "b", "c", "d", "e"] : List String).length - 1 ∧
    firstIdx "x" ["a"] = none ∧
    StringList.RemoveUnordered ⟨["a"]⟩ "x" = ⟨["a"]⟩ := by
  have h := (removeUnordered_swaps_in_last ["a", "b", "c", "d", "e"] "c").1 2 (by decide)
  have h2 := (removeUnordered_swaps_in_last ["a"] "x").2 (by decide)
  exact ⟨by decide, h.1.trans (by decide), h.2, by decide, h2⟩

/-- C7: `Filter` visits the indices `0, 1, …, length-1` of the source in
ascending order, hands each call the index together with the original,
unmodified item sequence, and appends the returned value exactly when the
returned flag is true, preserving traversal order.  The source list itself
(a value receiver in the code) is never changed. -/
theorem filter_visits_ascending_keeps_order (l : List String)
    (op : Nat → List String → Bool × String) :
    StringList.Filter ⟨l⟩ op =
      ⟨(List.range l.length).filterMap
        (fun i => if (op i l).1 then some (op i l).2 else none)⟩ := by
  have hdef : StringList.Filter ⟨l⟩ op = ⟨filterLoop op l (List.range l.length) []⟩ := rfl
  rw [hdef, filterLoop_append]
  simp

/-- C8: whenever the engine compiles the pattern to `re`, `MatchFilter`
succeeds and returns exactly the items on which `re` reports a match
(Go's `MatchString`: a match anywhere in the item), in their original
order. -/
theorem matchFilter_keeps_exactly_matching (compile : RegexEngine) (l : List String)
    (p : String) (re : Regexp) (h : compile p = Except.ok re) :
    StringList.MatchFilter compile ⟨l⟩ p = (⟨l.filter re.MatchString⟩, none) := by
  simp only [StringList.MatchFilter, h]
  rw [matchLoop_append]
  simp

/-- Witness for C8 on the spec's example: a leading-uppercase matcher keeps
`["Banana", "Pear"]` out of `["apple", "Banana", "orange", "Pear"]`. -/
theorem matchFilter_keeps_exactly_matching_witness :
    demoEngine "upper" = Except.ok demoRegexp ∧
    StringList.MatchFilter demoEngine ⟨["apple", "Banana", "orange", "Pear"]⟩ "upper" =
      (⟨["Banana", "Pear"]⟩, none) :=
  ⟨rfl,
   (matchFilter_keeps_exactly_matching demoEngine ["apple", "Banana", "orange", "Pear"]
     "upper" demoRegexp rfl).trans (by decide)⟩

/-- C9: when the engine rejects the pattern with compile error `e`, both
`MatchFilter` and `ReplaceAllFilter` return that error together with the
still-empty default list, and the receiver is untouched (both methods take
the list by value and the error return happens before any result is
built). -/
theorem compile_error_returns_default_and_error (compile : RegexEngine)
    (l : List String) (p repl e : String) (h : compile p = Except.error e) :
    StringList.MatchFilter compile ⟨l⟩ p = (⟨[]⟩, some e) ∧
    StringList.ReplaceAllFilter compile ⟨l⟩ p repl = (⟨[]⟩, some e) := by
  constructor <;> simp only [StringList.MatchFilter, StringList.ReplaceAllFilter, h]

/-- Witness for C9 with a concretely failing pattern. -/
theorem compile_error_returns_default_and_error_witness :
    demoEngine "oops" = Except.error "bad pattern: oops" ∧
    StringList.MatchFilter demoEngine ⟨["apple", "Banana"]⟩ "oops" =
      (⟨[]⟩, some "bad pattern: oops") ∧
    StringList.ReplaceAllFilter demoEngine ⟨["apple", "Banana"]⟩ "oops" "r" =
      (⟨[]⟩, some "bad pattern: oops") := by
  have h := compile_error_returns_default_and_error demoEngine ["apple", "Banana"]
    "oops" "r" "bad pattern: oops" rfl
  exact ⟨rfl, h.1, h.2⟩

/-- C10: `Contains` and `IndexOf` always agree: `Contains` is true exactly
when `IndexOf` is nonnegative, and false exactly when `IndexOf` is the
sentinel `-1`. -/
theorem contains_agrees_with_indexOf (l : List String) (s : String) :
    StringList.Contains ⟨l⟩ s = decide (0 ≤ StringList.IndexOf ⟨l⟩ s) ∧
    (!StringList.Contains ⟨l⟩ s) = decide (StringList.IndexOf ⟨l⟩ s = -1) := by
  have hc : StringList.Contains ⟨l⟩ s = containsLoop s l := rfl
  have hi : StringList.IndexOf ⟨l⟩ s = indexOfLoop s l 0 := rfl
  rw [hc, hi, containsLoop_eq, indexOfLoop_eq]
  cases hf : firstIdx s l with
  | none => simp
  | some k =>
      have h1 : (0 : Int) ≤ 0 + (k : Int) := by omega
      have h2 : ¬((0 : Int) + (k : Int) = -1) := by omega
      simp [h1, h2]
